import Mathlib

/-!
# ezUART: the fixed-slot store behind `send_ezUART`

A shallow embedding of `src/ezUART/ezUART.c`.

* A byte is a `Fin 256` (`CHAR_BIT = 8`), and `uint32_t` occupies 4 bytes.
* The global `uint32_t vars[MAX_VARS]` is modelled by its object
  representation: a flat list of bytes, slot `j` being the bytes at offsets
  `4*j .. 4*j+3`.  That the list has `MAX_VARS * 4` bytes is the predicate
  `WellFormed`, not a property of the type, so that it can be stated and
  proved as an invariant.
* The argument `void *var` is modelled by the bytes of the caller's object
  it points to (a list of bytes, of any length).  The object is the
  caller's own memory, disjoint from `vars`.  Where a pointer into `vars`
  itself matters (a sequence of calls in which one call writes what another
  reads), the argument is a `Source` and the call is `send_ezUART_ptr`.
* `int id` is a mathematical integer; every theorem quantifies over all of
  `Int`, which contains the range of the C type `int`.
* `sizeof(var)` is the size of the pointer `var` itself.  It is fixed by the
  target ABI, which the repository does not determine, so it is the
  parameter `ptrSize` of the model.
* Undefined behaviour of the C program is an explicit `Fault`: a write
  through an index outside the array, `memcpy` reading more bytes than the
  source object has, or `memcpy` between overlapping regions.
-/

namespace EzUART

/-- One byte of memory. -/
abbrev Byte := Fin 256

/-- `#define MAX_VARS 10`: the number of slots. -/
def MAX_VARS : Nat := 10

/-- `#define VAR_SIZE 4`: the number of bytes copied by each call. -/
def VAR_SIZE : Nat := 4

/-- `sizeof(uint32_t)`: the width in bytes of one element of `vars`. -/
def SIZEOF_UINT32 : Nat := 4

/-- The object representation of `uint32_t vars[MAX_VARS]`. -/
abbrev Store := List Byte

/-- The store has the shape of `uint32_t vars[MAX_VARS]`: `MAX_VARS` elements
of `SIZEOF_UINT32` bytes each. -/
def WellFormed (vars : Store) : Prop := vars.length = MAX_VARS * SIZEOF_UINT32

instance (vars : Store) : Decidable (WellFormed vars) := by
  unfold WellFormed; infer_instance

/-- The store at program start: a global without initialiser is zeroed. -/
def vars_init : Store := List.replicate (MAX_VARS * SIZEOF_UINT32) 0

/-- The bytes of slot `j`, that is of `vars[j]`. -/
def slot (vars : Store) (j : Nat) : List Byte :=
  (vars.drop (SIZEOF_UINT32 * j)).take SIZEOF_UINT32

/-- The number of whole slots the store holds. -/
def slotCount (vars : Store) : Nat := vars.length / SIZEOF_UINT32

/-- The ways a call can leave defined behaviour. -/
inductive Fault where
  /-- a write outside the array `vars` -/
  | outOfBounds
  /-- a read past the end of the source object -/
  | overread
  /-- a `memcpy` whose source and destination overlap -/
  | overlap
  deriving DecidableEq, Repr

/-- The outcome of a call: the new store, or a fault. -/
inductive Outcome where
  | ok (vars : Store)
  | fault (f : Fault)
  deriving DecidableEq, Repr

/-- `memcpy(dst + off, src, n)` on byte lists: the `n` bytes at offset `off`
of `dst` are replaced by the first `n` bytes of `src`. -/
def memcpy (dst : List Byte) (off : Nat) (src : List Byte) (n : Nat) : Outcome :=
  if dst.length < off + n then .fault .outOfBounds
  else if src.length < n then .fault .overread
  else .ok (dst.take off ++ src.take n ++ dst.drop (off + n))

/-- `memcpy(&vars[id], var, n)`: the indexed write.  Indexing `vars` with an
`id` outside `0 .. MAX_VARS - 1` is the out-of-bounds branch. -/
def memcpy_vars (vars : Store) (id : Int) (var : List Byte) (n : Nat) : Outcome :=
  if id < 0 ∨ (MAX_VARS : Int) ≤ id then .fault .outOfBounds
  else memcpy vars (SIZEOF_UINT32 * id.toNat) var n

/-- `void send_ezUART(void *var, int id)` on a target whose pointers are
`ptrSize` bytes wide (`sizeof(var) = ptrSize`). -/
def send_ezUART (ptrSize : Nat) (vars : Store) (var : List Byte) (id : Int) : Outcome :=
  if id < 0 ∨ id ≥ (MAX_VARS : Int) then
    .ok vars
  else if ptrSize > VAR_SIZE then
    memcpy_vars vars id var VAR_SIZE
  else if ptrSize = VAR_SIZE then
    memcpy_vars vars id var VAR_SIZE
  else
    .ok vars

/-- Sequencing of calls: the next call runs on the store the previous one
left, and a fault ends the run. -/
def Outcome.andThen (o : Outcome) (f : Store → Outcome) : Outcome :=
  match o with
  | .ok vars => f vars
  | .fault e => .fault e

/-- A finite sequence of calls `send_ezUART(var, id)`, in order. -/
def run (ptrSize : Nat) (vars : Store) : List (List Byte × Int) → Outcome
  | [] => .ok vars
  | (var, id) :: rest => (send_ezUART ptrSize vars var id).andThen (fun vars' => run ptrSize vars' rest)

/-- Byte order of the target. -/
inductive ByteOrder where
  | little
  | big
  deriving DecidableEq, Repr

/-- The 4 bytes of a 32-bit value in memory, lowest address first. -/
def encode32 (bo : ByteOrder) (v : Nat) : List Byte :=
  let b0 : Byte := Fin.ofNat (v % 256)
  let b1 : Byte := Fin.ofNat (v / 256 % 256)
  let b2 : Byte := Fin.ofNat (v / 65536 % 256)
  let b3 : Byte := Fin.ofNat (v / 16777216 % 256)
  match bo with
  | .little => [b0, b1, b2, b3]
  | .big => [b3, b2, b1, b0]

/-- The 32-bit value that 4 bytes of memory hold; `none` unless there are
exactly 4 bytes. -/
def decode32 (bo : ByteOrder) : List Byte → Option Nat
  | [a, b, c, d] =>
    match bo with
    | .little => some (a.val + 256 * b.val + 65536 * c.val + 16777216 * d.val)
    | .big => some (d.val + 256 * c.val + 65536 * b.val + 16777216 * a.val)
  | _ => none

/-- Reading `vars[j]` as a `uint32_t`. -/
def read32 (bo : ByteOrder) (vars : Store) (j : Nat) : Option Nat :=
  decode32 bo (slot vars j)

/-- What the argument `void *var` points at.  `vars` is a global with external
linkage, so a caller can also pass an address inside it. -/
inductive Source where
  /-- an object of the caller, outside `vars`, holding these bytes -/
  | object (bytes : List Byte)
  /-- the address `(char *)vars + off`, inside the global array -/
  | inVars (off : Nat)
  deriving DecidableEq, Repr

/-- The bytes that can be read through the pointer at the time of the call,
up to the end of the object it points into. -/
def Source.read (vars : Store) : Source → List Byte
  | .object bytes => bytes
  | .inVars off => vars.drop off

/-- The `VAR_SIZE` bytes read through the pointer overlap slot `id` of
`vars`. -/
def Source.overlaps (src : Source) (id : Int) : Bool :=
  match src with
  | .object _ => false
  | .inVars off =>
    decide (0 ≤ id ∧ id < (MAX_VARS : Int) ∧
      off < SIZEOF_UINT32 * id.toNat + VAR_SIZE ∧ SIZEOF_UINT32 * id.toNat < off + VAR_SIZE)

/-- `send_ezUART(var, id)` with the argument as a pointer: the bytes are read
through it from the store as it is when the call is made, and a copy between
overlapping regions is undefined (`memcpy`). -/
def send_ezUART_ptr (ptrSize : Nat) (vars : Store) (src : Source) (id : Int) : Outcome :=
  if VAR_SIZE ≤ ptrSize ∧ src.overlaps id = true then .fault .overlap
  else send_ezUART ptrSize vars (src.read vars) id

example : (send_ezUART 4 vars_init [1, 2, 3, 4] 3).andThen (fun v => .ok (slot v 3)) = .ok [1, 2, 3, 4] := by decide
example : (send_ezUART 8 vars_init [1, 2, 3, 4, 5, 6, 7, 8] 9).andThen (fun v => .ok (slot v 9)) = .ok [1, 2, 3, 4] := by decide
example : send_ezUART 2 vars_init [1, 2, 3, 4] 3 = .ok vars_init := by decide
example : send_ezUART 4 vars_init [1, 2, 3, 4] 10 = .ok vars_init := by decide
example : send_ezUART 4 vars_init [1, 2] 3 = .fault .overread := by decide
example : memcpy_vars vars_init 10 [1, 2, 3, 4] 4 = .fault .outOfBounds := by decide
example : send_ezUART_ptr 4 (List.replicate 4 7 ++ List.replicate 36 0) (.inVars 0) 2
    = send_ezUART 4 (List.replicate 4 7 ++ List.replicate 36 0) [7, 7, 7, 7] 2 := by decide
example : send_ezUART_ptr 4 vars_init (.inVars 6) 2 = .fault .overlap := by decide
example : send_ezUART_ptr 4 vars_init (.inVars 38) 2 = .fault .overread := by decide
example : encode32 .little 42 = [42, 0, 0, 0] := by decide
example : encode32 .little 0x3FC00000 = [0, 0, 0xC0, 0x3F] := by decide

/-! ## Auxiliary lemmas -/

/-- The store after the 4 bytes at slot `k` are replaced by `bytes`. -/
theorem slot_splice_same (vars bytes : List Byte) (k : Nat)
    (hlen : SIZEOF_UINT32 * k + 4 ≤ vars.length) (hb : bytes.length = 4) :
    slot (vars.take (SIZEOF_UINT32 * k) ++ bytes ++ vars.drop (SIZEOF_UINT32 * k + 4)) k = bytes := by
  unfold slot SIZEOF_UINT32 at *
  have h1 : (List.take (4 * k) vars).length = 4 * k := by
    rw [List.length_take]; omega
  rw [List.append_assoc, List.drop_append_of_le_length (by omega)]
  rw [List.drop_of_length_le (by omega), List.nil_append]
  rw [List.take_append_of_le_length (by omega)]
  exact List.take_of_length_le (by omega)

theorem slot_splice_other (vars bytes : List Byte) (k j : Nat)
    (hlen : SIZEOF_UINT32 * k + 4 ≤ vars.length) (hb : bytes.length = 4) (hjk : j ≠ k) :
    slot (vars.take (SIZEOF_UINT32 * k) ++ bytes ++ vars.drop (SIZEOF_UINT32 * k + 4)) j = slot vars j := by
  unfold slot SIZEOF_UINT32 at *
  have h1 : (List.take (4 * k) vars).length = 4 * k := by
    rw [List.length_take]; omega
  rcases Nat.lt_or_gt_of_ne hjk with h | h
  · rw [List.append_assoc, List.drop_append_of_le_length (by omega)]
    rw [List.take_append_of_le_length (by rw [List.length_drop]; omega)]
    rw [List.drop_take, List.take_take]
    congr 1
    omega
  · rw [List.append_assoc, List.drop_append_eq_append_drop, List.drop_append_eq_append_drop]
    rw [List.drop_of_length_le (by omega), List.nil_append]
    rw [List.drop_of_length_le (by rw [h1, hb]; omega), List.nil_append]
    rw [List.drop_drop, h1, hb]
    congr 2
    omega

/-- An `id` outside `0 .. MAX_VARS - 1` takes the early `return`. -/
theorem send_ezUART_of_invalid (ptrSize : Nat) (vars : Store) (var : List Byte) (id : Int)
    (hid : id < 0 ∨ (MAX_VARS : Int) ≤ id) : send_ezUART ptrSize vars var id = .ok vars := by
  unfold send_ezUART
  rw [if_pos (by omega)]

/-- With pointers narrower than `VAR_SIZE` neither branch of the size test is
taken. -/
theorem send_ezUART_of_narrow (ptrSize : Nat) (vars : Store) (var : List Byte) (id : Int)
    (hptr : ptrSize < VAR_SIZE) : send_ezUART ptrSize vars var id = .ok vars := by
  unfold send_ezUART
  split
  · rfl
  · rw [if_neg (by omega), if_neg (by omega)]

/-- With a valid `id` and pointers of at least `VAR_SIZE` bytes the call is
the indexed `memcpy`. -/
theorem send_ezUART_of_valid (ptrSize : Nat) (vars : Store) (var : List Byte) (id : Int)
    (hptr : VAR_SIZE ≤ ptrSize) (h0 : 0 ≤ id) (h1 : id < (MAX_VARS : Int)) :
    send_ezUART ptrSize vars var id = memcpy_vars vars id var VAR_SIZE := by
  unfold send_ezUART
  rw [if_neg (by omega)]
  by_cases h : ptrSize > VAR_SIZE
  · rw [if_pos h]
  · rw [if_neg h, if_pos (by omega)]

/-- The indexed `memcpy` on a well-formed store, from a source with enough
bytes, replaces the bytes of slot `id` by the first bytes of the source. -/
theorem memcpy_vars_eq (vars : Store) (var : List Byte) (id : Int)
    (hwf : WellFormed vars) (h0 : 0 ≤ id) (h1 : id < (MAX_VARS : Int))
    (hsrc : VAR_SIZE ≤ var.length) :
    memcpy_vars vars id var VAR_SIZE =
      .ok (vars.take (SIZEOF_UINT32 * id.toNat) ++ var.take 4
        ++ vars.drop (SIZEOF_UINT32 * id.toNat + 4)) := by
  unfold WellFormed MAX_VARS SIZEOF_UINT32 at hwf
  unfold MAX_VARS at h1
  unfold VAR_SIZE at hsrc
  unfold memcpy_vars memcpy MAX_VARS SIZEOF_UINT32 VAR_SIZE
  rw [if_neg (by omega), if_neg (by omega), if_neg (by omega)]

/-- The indexed `memcpy` from a source that is too short is a fault. -/
theorem memcpy_vars_short (vars : Store) (var : List Byte) (id : Int)
    (hwf : WellFormed vars) (h0 : 0 ≤ id) (h1 : id < (MAX_VARS : Int))
    (hsrc : var.length < VAR_SIZE) :
    memcpy_vars vars id var VAR_SIZE = .fault .overread := by
  unfold WellFormed MAX_VARS SIZEOF_UINT32 at hwf
  unfold MAX_VARS at h1
  unfold VAR_SIZE at hsrc
  unfold memcpy_vars memcpy MAX_VARS SIZEOF_UINT32 VAR_SIZE
  rw [if_neg (by omega), if_neg (by omega), if_pos (by omega)]

/-- Replacing the bytes of a slot keeps the store well-formed. -/
theorem wellFormed_splice (vars var : List Byte) (k : Nat)
    (hwf : WellFormed vars) (hk : k < MAX_VARS) (hsrc : VAR_SIZE ≤ var.length) :
    WellFormed (vars.take (SIZEOF_UINT32 * k) ++ var.take 4
      ++ vars.drop (SIZEOF_UINT32 * k + 4)) := by
  unfold WellFormed MAX_VARS SIZEOF_UINT32 VAR_SIZE at *
  simp only [List.length_append, List.length_take, List.length_drop]
  omega

/-- Every call on a well-formed store either leaves it as it is or replaces
the bytes of the in-range slot `id` by the first 4 bytes of the source, or
faults on a source shorter than `VAR_SIZE`. -/
theorem send_ezUART_cases (ptrSize : Nat) (vars : Store) (var : List Byte) (id : Int)
    (hwf : WellFormed vars) :
    send_ezUART ptrSize vars var id = .ok vars ∨
    (0 ≤ id ∧ id < (MAX_VARS : Int) ∧ VAR_SIZE ≤ ptrSize ∧ VAR_SIZE ≤ var.length ∧
      send_ezUART ptrSize vars var id =
        .ok (vars.take (SIZEOF_UINT32 * id.toNat) ++ var.take 4
          ++ vars.drop (SIZEOF_UINT32 * id.toNat + 4))) ∨
    (0 ≤ id ∧ id < (MAX_VARS : Int) ∧ VAR_SIZE ≤ ptrSize ∧ var.length < VAR_SIZE ∧
      send_ezUART ptrSize vars var id = .fault .overread) := by
  by_cases hid : id < 0 ∨ (MAX_VARS : Int) ≤ id
  · exact Or.inl (send_ezUART_of_invalid ptrSize vars var id hid)
  · by_cases hptr : ptrSize < VAR_SIZE
    · exact Or.inl (send_ezUART_of_narrow ptrSize vars var id hptr)
    · have h0 : 0 ≤ id := by omega
      have h1 : id < (MAX_VARS : Int) := by omega
      have hp : VAR_SIZE ≤ ptrSize := by omega
      by_cases hsrc : VAR_SIZE ≤ var.length
      · refine Or.inr (Or.inl ⟨h0, h1, hp, hsrc, ?_⟩)
        rw [send_ezUART_of_valid ptrSize vars var id hp h0 h1,
          memcpy_vars_eq vars var id hwf h0 h1 hsrc]
      · refine Or.inr (Or.inr ⟨h0, h1, hp, by omega, ?_⟩)
        rw [send_ezUART_of_valid ptrSize vars var id hp h0 h1,
          memcpy_vars_short vars var id hwf h0 h1 (by omega)]

/-- A call whose source has at least `VAR_SIZE` bytes returns a store. -/
theorem send_ezUART_returns (ptrSize : Nat) (vars : Store) (var : List Byte) (id : Int)
    (hwf : WellFormed vars) (hsrc : VAR_SIZE ≤ var.length) :
    ∃ vars', send_ezUART ptrSize vars var id = .ok vars' := by
  rcases send_ezUART_cases ptrSize vars var id hwf with h | ⟨_, _, _, _, h⟩ | ⟨_, _, _, hlt, _⟩
  · exact ⟨_, h⟩
  · exact ⟨_, h⟩
  · omega

/-- A call keeps the store well-formed. -/
theorem send_ezUART_wellFormed (ptrSize : Nat) (vars vars' : Store) (var : List Byte) (id : Int)
    (hwf : WellFormed vars) (h : send_ezUART ptrSize vars var id = .ok vars') :
    WellFormed vars' := by
  rcases send_ezUART_cases ptrSize vars var id hwf with h' | ⟨h0, h1, _, hsrc, h'⟩ | ⟨_, _, _, _, h'⟩
  · rw [h'] at h; cases h; exact hwf
  · rw [h'] at h; cases h
    exact wellFormed_splice vars var id.toNat hwf (by omega) hsrc
  · rw [h'] at h; cases h

/-- A call leaves every slot other than slot `id` as it was. -/
theorem send_ezUART_frame (ptrSize : Nat) (vars vars' : Store) (var : List Byte) (id : Int) (j : Nat)
    (hwf : WellFormed vars) (hji : (j : Int) ≠ id)
    (h : send_ezUART ptrSize vars var id = .ok vars') :
    slot vars' j = slot vars j := by
  rcases send_ezUART_cases ptrSize vars var id hwf with h' | ⟨h0, h1, _, hsrc, h'⟩ | ⟨_, _, _, _, h'⟩
  · rw [h'] at h; cases h; rfl
  · rw [h'] at h; cases h
    unfold WellFormed MAX_VARS SIZEOF_UINT32 at hwf
    unfold MAX_VARS at h1
    unfold VAR_SIZE at hsrc
    apply slot_splice_other
    · unfold SIZEOF_UINT32; omega
    · rw [List.length_take]; omega
    · omega
  · rw [h'] at h; cases h

/-- After a call with a valid `id`, pointers of at least `VAR_SIZE` bytes and
a source of at least 4 bytes, slot `id` holds the first 4 source bytes. -/
theorem send_ezUART_slot (ptrSize : Nat) (vars : Store) (var : List Byte) (id : Int)
    (hptr : VAR_SIZE ≤ ptrSize) (hwf : WellFormed vars)
    (h0 : 0 ≤ id) (h1 : id < (MAX_VARS : Int)) (hsrc : 4 ≤ var.length) :
    ∃ vars', send_ezUART ptrSize vars var id = .ok vars' ∧
      slot vars' id.toNat = var.take 4 := by
  refine ⟨vars.take (SIZEOF_UINT32 * id.toNat) ++ var.take 4
    ++ vars.drop (SIZEOF_UINT32 * id.toNat + 4), ?_, ?_⟩
  · rw [send_ezUART_of_valid ptrSize vars var id hptr h0 h1]
    exact memcpy_vars_eq vars var id hwf h0 h1 hsrc
  · unfold WellFormed MAX_VARS SIZEOF_UINT32 at hwf
    unfold MAX_VARS at h1
    apply slot_splice_same
    · unfold SIZEOF_UINT32; omega
    · rw [List.length_take]; omega

/-- Replacing the bytes of slot `k` twice is replacing them once, by the
second bytes. -/
theorem splice_splice (vars b c : List Byte) (k : Nat)
    (hlen : SIZEOF_UINT32 * k + 4 ≤ vars.length) (hb : b.length = 4) :
    (vars.take (SIZEOF_UINT32 * k) ++ b ++ vars.drop (SIZEOF_UINT32 * k + 4)).take (SIZEOF_UINT32 * k)
      ++ c ++
      (vars.take (SIZEOF_UINT32 * k) ++ b ++ vars.drop (SIZEOF_UINT32 * k + 4)).drop (SIZEOF_UINT32 * k + 4)
    = vars.take (SIZEOF_UINT32 * k) ++ c ++ vars.drop (SIZEOF_UINT32 * k + 4) := by
  unfold SIZEOF_UINT32 at *
  have h1 : (List.take (4 * k) vars).length = 4 * k := by
    rw [List.length_take]; omega
  have h2 : (List.take (4 * k) vars ++ b).length = 4 * k + 4 := by
    rw [List.length_append, h1, hb]
  congr 1
  · congr 1
    rw [List.append_assoc, List.take_append_of_le_length (by omega)]
    exact List.take_of_length_le (by omega)
  · rw [List.drop_append_of_le_length (by omega)]
    rw [List.drop_of_length_le (by omega), List.nil_append]

/-- Decoding the encoding of a 32-bit value gives the value back, in either
byte order. -/
theorem decode32_encode32 (bo : ByteOrder) (v : Nat) (hv : v < 2 ^ 32) :
    decode32 bo (encode32 bo v) = some v := by
  cases bo <;>
  · simp only [encode32, decode32, Fin.ofNat, Fin.val_mk, Option.some.injEq]
    omega

/-- The encoding of a 32-bit value has 4 bytes. -/
theorem encode32_length (bo : ByteOrder) (v : Nat) : (encode32 bo v).length = 4 := by
  cases bo <;> rfl

/-- A well-formed store has exactly `MAX_VARS` slots of `VAR_SIZE` bytes. -/
theorem wellFormed_shape (vars : Store) (hwf : WellFormed vars) :
    vars.length = MAX_VARS * VAR_SIZE ∧ slotCount vars = MAX_VARS ∧
    (∀ j, j < MAX_VARS → (slot vars j).length = VAR_SIZE) ∧
    (∀ j, MAX_VARS ≤ j → slot vars j = []) := by
  unfold WellFormed at hwf
  unfold slotCount slot
  unfold MAX_VARS SIZEOF_UINT32 VAR_SIZE at *
  refine ⟨hwf, by omega, ?_, ?_⟩
  · intro j hj
    rw [List.length_take, List.length_drop]
    omega
  · intro j hj
    rw [List.drop_of_length_le (by omega)]
    rfl

/-- A run from a well-formed store ends in a well-formed store. -/
theorem run_wellFormed (ptrSize : Nat) (calls : List (List Byte × Int)) :
    ∀ (vars vars' : Store), WellFormed vars → run ptrSize vars calls = .ok vars' →
      WellFormed vars' := by
  induction calls with
  | nil =>
    intro vars vars' hwf h
    simp only [run, Outcome.ok.injEq] at h
    rw [← h]; exact hwf
  | cons c rest ih =>
    intro vars vars' hwf h
    obtain ⟨var, id⟩ := c
    simp only [run] at h
    cases hs : send_ezUART ptrSize vars var id with
    | ok mid =>
      rw [hs] at h
      exact ih mid vars' (send_ezUART_wellFormed ptrSize vars mid var id hwf hs) h
    | fault e =>
      rw [hs] at h
      cases h

/-- A run whose sources all have at least `VAR_SIZE` bytes returns a store. -/
theorem run_returns (ptrSize : Nat) (calls : List (List Byte × Int)) :
    ∀ (vars : Store), WellFormed vars → (∀ c ∈ calls, VAR_SIZE ≤ c.1.length) →
      ∃ vars', run ptrSize vars calls = .ok vars' := by
  induction calls with
  | nil =>
    intro vars _ _
    exact ⟨vars, rfl⟩
  | cons c rest ih =>
    intro vars hwf hsrc
    obtain ⟨var, id⟩ := c
    obtain ⟨mid, hs⟩ := send_ezUART_returns ptrSize vars var id hwf
      (hsrc (var, id) (List.mem_cons_self _ _))
    obtain ⟨vars', hr⟩ := ih mid (send_ezUART_wellFormed ptrSize vars mid var id hwf hs)
      (fun c hc => hsrc c (List.mem_cons_of_mem _ hc))
    refine ⟨vars', ?_⟩
    simp only [run, hs]
    exact hr

/-- A run leaves every slot whose index is not among its ids as it was. -/
theorem run_frame (ptrSize : Nat) (j : Nat) (calls : List (List Byte × Int)) :
    ∀ (vars vars' : Store), WellFormed vars → (∀ c ∈ calls, c.2 ≠ (j : Int)) →
      run ptrSize vars calls = .ok vars' → slot vars' j = slot vars j := by
  induction calls with
  | nil =>
    intro vars vars' _ _ h
    simp only [run, Outcome.ok.injEq] at h
    rw [h]
  | cons c rest ih =>
    intro vars vars' hwf hids h
    obtain ⟨var, id⟩ := c
    simp only [run] at h
    cases hs : send_ezUART ptrSize vars var id with
    | ok mid =>
      rw [hs] at h
      have hne : (j : Int) ≠ id := fun e => hids (var, id) (List.mem_cons_self _ _) e.symm
      rw [ih mid vars' (send_ezUART_wellFormed ptrSize vars mid var id hwf hs)
        (fun c hc => hids c (List.mem_cons_of_mem _ hc)) h]
      exact send_ezUART_frame ptrSize vars mid var id j hwf hne hs
    | fault e =>
      rw [hs] at h
      cases h

/-- Two well-formed stores with the same slots are the same store. -/
theorem slot_ext (v w : Store) (hv : WellFormed v) (hw : WellFormed w)
    (h : ∀ j, j < MAX_VARS → slot v j = slot w j) : v = w := by
  unfold WellFormed MAX_VARS SIZEOF_UINT32 at hv hw
  unfold MAX_VARS at h
  have key : ∀ (u : Store) (i : Nat), (slot u (i / 4))[i % 4]? = u[i]? := by
    intro u i
    unfold slot SIZEOF_UINT32
    rw [List.getElem?_take_of_lt (Nat.mod_lt i (by decide)), List.getElem?_drop]
    congr 1
    omega
  apply List.ext_getElem?
  intro i
  by_cases hi : i < 40
  · rw [← key v i, ← key w i, h (i / 4) (by omega)]
  · rw [List.getElem?_eq_none (by omega), List.getElem?_eq_none (by omega)]

/-- The indexed write faults as out of bounds exactly when the index is
outside `0 .. MAX_VARS - 1`. -/
theorem memcpy_vars_outOfBounds_iff (vars : Store) (var : List Byte) (id : Int)
    (hwf : WellFormed vars) :
    memcpy_vars vars id var VAR_SIZE = .fault .outOfBounds ↔ (id < 0 ∨ (MAX_VARS : Int) ≤ id) := by
  constructor
  · intro h
    by_contra hid
    by_cases hsrc : VAR_SIZE ≤ var.length
    · rw [memcpy_vars_eq vars var id hwf (by omega) (by omega) hsrc] at h
      cases h
    · rw [memcpy_vars_short vars var id hwf (by omega) (by omega) (by omega)] at h
      cases h
  · intro hid
    unfold memcpy_vars
    rw [if_pos hid]

/-- Following a call by one that returns its store as it is changes nothing. -/
theorem andThen_ok (o : Outcome) : o.andThen (fun vars => .ok vars) = o := by
  cases o <;> rfl

/-- Replacing the bytes of two different slots gives the same store in either
order. -/
theorem splice_comm (vars x y : List Byte) (k l : Nat) (hwf : WellFormed vars)
    (hk : k < MAX_VARS) (hl : l < MAX_VARS) (hkl : k ≠ l)
    (hx : VAR_SIZE ≤ x.length) (hy : VAR_SIZE ≤ y.length) :
    (vars.take (SIZEOF_UINT32 * k) ++ x.take 4 ++ vars.drop (SIZEOF_UINT32 * k + 4)).take
        (SIZEOF_UINT32 * l) ++ y.take 4 ++
      (vars.take (SIZEOF_UINT32 * k) ++ x.take 4 ++ vars.drop (SIZEOF_UINT32 * k + 4)).drop
        (SIZEOF_UINT32 * l + 4)
    = (vars.take (SIZEOF_UINT32 * l) ++ y.take 4 ++ vars.drop (SIZEOF_UINT32 * l + 4)).take
        (SIZEOF_UINT32 * k) ++ x.take 4 ++
      (vars.take (SIZEOF_UINT32 * l) ++ y.take 4 ++ vars.drop (SIZEOF_UINT32 * l + 4)).drop
        (SIZEOF_UINT32 * k + 4) := by
  have hwx := wellFormed_splice vars x k hwf hk hx
  have hwy := wellFormed_splice vars y l hwf hl hy
  have hlen : ∀ (u : Store) (m : Nat), WellFormed u → m < MAX_VARS →
      SIZEOF_UINT32 * m + 4 ≤ u.length := by
    intro u m hu hm
    unfold WellFormed at hu
    unfold MAX_VARS at hm hu
    unfold SIZEOF_UINT32 at *
    omega
  have htake : ∀ c : List Byte, VAR_SIZE ≤ c.length → (c.take 4).length = 4 := by
    intro c hc
    unfold VAR_SIZE at hc
    rw [List.length_take]; omega
  apply slot_ext _ _ (wellFormed_splice _ y l hwx hl hy) (wellFormed_splice _ x k hwy hk hx)
  intro m _
  by_cases hml : m = l
  · subst hml
    rw [slot_splice_same _ _ _ (hlen _ _ hwx hl) (htake y hy),
      slot_splice_other _ _ _ _ (hlen _ _ hwy hk) (htake x hx) (Ne.symm hkl),
      slot_splice_same _ _ _ (hlen _ _ hwf hl) (htake y hy)]
  · rw [slot_splice_other _ _ _ _ (hlen _ _ hwx hl) (htake y hy) hml]
    by_cases hmk : m = k
    · subst hmk
      rw [slot_splice_same _ _ _ (hlen _ _ hwf hk) (htake x hx),
        slot_splice_same _ _ _ (hlen _ _ hwy hk) (htake x hx)]
    · rw [slot_splice_other _ _ _ _ (hlen _ _ hwf hk) (htake x hx) hmk,
        slot_splice_other _ _ _ _ (hlen _ _ hwy hk) (htake x hx) hmk,
        slot_splice_other _ _ _ _ (hlen _ _ hwf hl) (htake y hy) hml]

/-! ## The write stores the first four bytes of the source -/

/-- Where the pointer is at least `VAR_SIZE` bytes wide the write does what C1
says: for every well-formed store, every `id` with `0 ≤ id < MAX_VARS` and
every source of at least 4 bytes, `send_ezUART(source, id)` returns, and
afterwards slot `id` holds exactly the first 4 bytes of the source, in the
same order. -/
theorem send_ezUART_stores_source (ptrSize : Nat) (vars : Store) (var : List Byte) (id : Int)
    (hptr : VAR_SIZE ≤ ptrSize) (hwf : WellFormed vars)
    (h0 : 0 ≤ id) (h1 : id < (MAX_VARS : Int)) (hsrc : 4 ≤ var.length) :
    ∃ vars', send_ezUART ptrSize vars var id = .ok vars' ∧
      slot vars' id.toNat = var.take 4 :=
  send_ezUART_slot ptrSize vars var id hptr hwf h0 h1 hsrc

/-- A 6-byte source written to slot 7 of a non-zero store on a target with
4-byte pointers. -/
theorem send_ezUART_stores_source_witness :
    ∃ vars', send_ezUART 4 (List.replicate 40 0xFF) [1, 2, 3, 4, 5, 6] 7 = .ok vars' ∧
      slot vars' (7 : Int).toNat = List.take 4 [1, 2, 3, 4, 5, 6] :=
  send_ezUART_stores_source 4 (List.replicate 40 0xFF) [1, 2, 3, 4, 5, 6] 7
    (by decide) (by decide) (by decide) (by decide) (by decide)

/-- C1 at its failing input: the size test is on `sizeof(var)`, the width of
the pointer, where the comments of the code speak of the size of the variable
("Copy directly if it's already 4 bytes").  On a target with 2-byte pointers
neither branch is taken, and a 4-byte source written to the valid slot 0 of
the initial store leaves the store as it was: slot 0 is still zero and does
not hold the first 4 bytes of the source. -/
theorem send_ezUART_stores_source_narrow_pointer :
    send_ezUART 2 vars_init [1, 2, 3, 4] 0 = .ok vars_init ∧
    slot vars_init 0 = [0, 0, 0, 0] ∧
    ¬ ∃ vars', send_ezUART 2 vars_init [1, 2, 3, 4] 0 = .ok vars' ∧
      slot vars' (0 : Int).toNat = List.take 4 [1, 2, 3, 4] := by
  refine ⟨by decide, by decide, ?_⟩
  rintro ⟨vars', h, hs⟩
  have h2 : send_ezUART 2 vars_init [1, 2, 3, 4] 0 = .ok vars_init := by decide
  rw [h2] at h
  cases h
  revert hs
  decide

/-! ## An out-of-range id is a silent no-op -/

/-- C2: for every store, every source (of any length) and every `id` with
`id < 0` or `id ≥ MAX_VARS`, `send_ezUART(source, id)` returns with the store
unchanged; the outcome carries no error. -/
theorem send_ezUART_out_of_range_noop (ptrSize : Nat) (vars : Store) (var : List Byte) (id : Int)
    (hid : id < 0 ∨ id ≥ (MAX_VARS : Int)) :
    send_ezUART ptrSize vars var id = .ok vars :=
  send_ezUART_of_invalid ptrSize vars var id hid

/-- Witness for C2: `id = MAX_VARS`, `id = -1`, and the extreme values of a
32-bit `int`, the last two with an empty source. -/
theorem send_ezUART_out_of_range_noop_witness :
    send_ezUART 4 vars_init [1, 2, 3, 4] 10 = .ok vars_init ∧
    send_ezUART 8 vars_init [1, 2, 3, 4] (-1) = .ok vars_init ∧
    send_ezUART 4 vars_init [] (-2147483648) = .ok vars_init ∧
    send_ezUART 4 vars_init [] 2147483647 = .ok vars_init :=
  ⟨send_ezUART_out_of_range_noop 4 vars_init [1, 2, 3, 4] 10 (by decide),
   send_ezUART_out_of_range_noop 8 vars_init [1, 2, 3, 4] (-1) (by decide),
   send_ezUART_out_of_range_noop 4 vars_init [] (-2147483648) (by decide),
   send_ezUART_out_of_range_noop 4 vars_init [] 2147483647 (by decide)⟩

/-! ## Independence of the slots -/

/-- C3: for every well-formed store, every source, every `id` `i` and every
slot index `j` with `j ≠ i` (in particular every `j` in `0 .. MAX_VARS - 1`),
whatever store `send_ezUART(source, i)` leaves has slot `j` unchanged; and the
call does leave a store when the source has at least `VAR_SIZE` bytes. -/
theorem send_ezUART_other_slots_unchanged (ptrSize : Nat) (vars : Store) (var : List Byte)
    (i : Int) (j : Nat) (hwf : WellFormed vars) (hji : (j : Int) ≠ i) :
    (∀ vars', send_ezUART ptrSize vars var i = .ok vars' → slot vars' j = slot vars j) ∧
    (VAR_SIZE ≤ var.length → ∃ vars', send_ezUART ptrSize vars var i = .ok vars') :=
  ⟨fun vars' h => send_ezUART_frame ptrSize vars vars' var i j hwf hji h,
   fun hsrc => send_ezUART_returns ptrSize vars var i hwf hsrc⟩

/-- Witness for C3: writing slot 2 of a store whose slot 3 is non-zero. -/
theorem send_ezUART_other_slots_unchanged_witness :
    (∀ vars', send_ezUART 4 (List.replicate 40 0xFF) [1, 2, 3, 4] 2 = .ok vars' →
        slot vars' 3 = slot (List.replicate 40 0xFF) 3) ∧
    (VAR_SIZE ≤ [(1 : Byte), 2, 3, 4].length →
        ∃ vars', send_ezUART 4 (List.replicate 40 0xFF) [1, 2, 3, 4] 2 = .ok vars') :=
  send_ezUART_other_slots_unchanged 4 (List.replicate 40 0xFF) [1, 2, 3, 4] 2 3
    (by decide) (by decide)

/-! ## Truncation -/

/-- Truncation as C4 describes it, where the pointer is wide enough: for every
well-formed store, every valid `id` and any two sources of 4 or more bytes
that agree on their first 4 bytes, `send_ezUART` returns the same store for
both; and on a target whose pointers are at least `VAR_SIZE` bytes wide, an
8-byte source beginning `0xAA,0xBB,0xCC,0xDD` written to slot 0 leaves slot 0
holding exactly `[0xAA,0xBB,0xCC,0xDD]`, whatever its remaining 4 bytes
are. -/
theorem send_ezUART_truncates (ptrSize : Nat) (vars : Store) (a b : List Byte) (id : Int)
    (hwf : WellFormed vars) (h0 : 0 ≤ id) (h1 : id < (MAX_VARS : Int))
    (ha : 4 ≤ a.length) (hb : 4 ≤ b.length) (hab : a.take 4 = b.take 4) :
    (∃ vars', send_ezUART ptrSize vars a id = .ok vars' ∧
        send_ezUART ptrSize vars b id = .ok vars') ∧
    (VAR_SIZE ≤ ptrSize → ∀ rest : List Byte, rest.length = 4 →
      ∃ vars', send_ezUART ptrSize vars ([0xAA, 0xBB, 0xCC, 0xDD] ++ rest) 0 = .ok vars' ∧
        slot vars' 0 = [0xAA, 0xBB, 0xCC, 0xDD]) := by
  constructor
  · by_cases hptr : ptrSize < VAR_SIZE
    · exact ⟨vars, send_ezUART_of_narrow ptrSize vars a id hptr,
        send_ezUART_of_narrow ptrSize vars b id hptr⟩
    · have hp : VAR_SIZE ≤ ptrSize := by omega
      refine ⟨vars.take (SIZEOF_UINT32 * id.toNat) ++ a.take 4
        ++ vars.drop (SIZEOF_UINT32 * id.toNat + 4), ?_, ?_⟩
      · rw [send_ezUART_of_valid ptrSize vars a id hp h0 h1]
        exact memcpy_vars_eq vars a id hwf h0 h1 ha
      · rw [send_ezUART_of_valid ptrSize vars b id hp h0 h1, hab]
        exact memcpy_vars_eq vars b id hwf h0 h1 hb
  · intro hp rest hrest
    have h := send_ezUART_slot ptrSize vars ([0xAA, 0xBB, 0xCC, 0xDD] ++ rest) 0 hp hwf
      (by decide) (by decide) (by simp)
    simpa using h

/-- Two 8-byte sources with the same first 4 bytes, written to slot 5. -/
theorem send_ezUART_truncates_witness :
    (∃ vars', send_ezUART 8 vars_init [0xAA, 0xBB, 0xCC, 0xDD, 1, 2, 3, 4] 5 = .ok vars' ∧
        send_ezUART 8 vars_init [0xAA, 0xBB, 0xCC, 0xDD, 9, 9, 9, 9] 5 = .ok vars') ∧
    (VAR_SIZE ≤ 8 → ∀ rest : List Byte, rest.length = 4 →
      ∃ vars', send_ezUART 8 vars_init ([0xAA, 0xBB, 0xCC, 0xDD] ++ rest) 0 = .ok vars' ∧
        slot vars' 0 = [0xAA, 0xBB, 0xCC, 0xDD]) :=
  send_ezUART_truncates 8 vars_init [0xAA, 0xBB, 0xCC, 0xDD, 1, 2, 3, 4]
    [0xAA, 0xBB, 0xCC, 0xDD, 9, 9, 9, 9] 5
    (by decide) (by decide) (by decide) (by decide) (by decide) (by decide)

/-- C4 at its failing input: the size test is on `sizeof(var)`, the width of
the pointer, where the comments of the code speak of the size of the variable
("Trim larger types to 4 bytes").  On a target with 2-byte pointers an 8-byte
source beginning `0xAA,0xBB,0xCC,0xDD` written to slot 0 of the initial store
is not trimmed into the slot: the store is left as it was and slot 0 is still
zero. -/
theorem send_ezUART_truncates_narrow_pointer :
    send_ezUART 2 vars_init [0xAA, 0xBB, 0xCC, 0xDD, 1, 2, 3, 4] 0 = .ok vars_init ∧
    slot vars_init 0 = [0, 0, 0, 0] ∧
    ¬ ∃ vars', send_ezUART 2 vars_init [0xAA, 0xBB, 0xCC, 0xDD, 1, 2, 3, 4] 0 = .ok vars' ∧
      slot vars' 0 = [0xAA, 0xBB, 0xCC, 0xDD] := by
  refine ⟨by decide, by decide, ?_⟩
  rintro ⟨vars', h, hs⟩
  have h2 : send_ezUART 2 vars_init [0xAA, 0xBB, 0xCC, 0xDD, 1, 2, 3, 4] 0 = .ok vars_init := by
    decide
  rw [h2] at h
  cases h
  revert hs
  decide

/-! ## Idempotence -/

/-- C5: for every well-formed store, every source and every `id` (valid or
not), calling `send_ezUART(source, id)` twice in a row has the same outcome as
calling it once; and the call does leave a store when the source has at least
`VAR_SIZE` bytes. -/
theorem send_ezUART_idempotent (ptrSize : Nat) (vars : Store) (var : List Byte) (id : Int)
    (hwf : WellFormed vars) :
    (send_ezUART ptrSize vars var id).andThen (fun vars' => send_ezUART ptrSize vars' var id)
        = send_ezUART ptrSize vars var id ∧
    (VAR_SIZE ≤ var.length → ∃ vars', send_ezUART ptrSize vars var id = .ok vars') := by
  refine ⟨?_, fun hsrc => send_ezUART_returns ptrSize vars var id hwf hsrc⟩
  rcases send_ezUART_cases ptrSize vars var id hwf with h | ⟨h0, h1, hp, hsrc, h⟩ | ⟨_, _, _, _, h⟩
  · rw [h]; exact h
  · rw [h]
    show send_ezUART ptrSize _ var id = _
    have hwf' := wellFormed_splice vars var id.toNat hwf (by omega) hsrc
    rw [send_ezUART_of_valid ptrSize _ var id hp h0 h1, memcpy_vars_eq _ var id hwf' h0 h1 hsrc]
    unfold WellFormed MAX_VARS SIZEOF_UINT32 at hwf
    unfold MAX_VARS at h1
    unfold VAR_SIZE at hsrc
    rw [splice_splice vars (var.take 4) (var.take 4) id.toNat
      (by unfold SIZEOF_UINT32; omega) (by rw [List.length_take]; omega)]
  · rw [h]; rfl

/-- Witness for C5: a write to slot 4, twice. -/
theorem send_ezUART_idempotent_witness :
    (send_ezUART 4 vars_init [7, 8, 9, 10] 4).andThen
        (fun vars' => send_ezUART 4 vars' [7, 8, 9, 10] 4)
        = send_ezUART 4 vars_init [7, 8, 9, 10] 4 ∧
    (VAR_SIZE ≤ [(7 : Byte), 8, 9, 10].length →
      ∃ vars', send_ezUART 4 vars_init [7, 8, 9, 10] 4 = .ok vars') :=
  send_ezUART_idempotent 4 vars_init [7, 8, 9, 10] 4 (by decide)

/-! ## Round trip of a 32-bit value -/

/-- The round trip that C6 describes, where the pointer is wide enough: on a
target whose pointers are at least `VAR_SIZE` bytes wide, for either byte
order, every 32-bit value `v`, every well-formed store and every valid `id`,
writing the 4-byte representation of `v` with `send_ezUART` and then reading
slot `id` as a 32-bit integer in the same byte order yields `v`. -/
theorem send_ezUART_read32 (ptrSize : Nat) (bo : ByteOrder) (vars : Store) (v : Nat) (id : Int)
    (hptr : VAR_SIZE ≤ ptrSize) (hwf : WellFormed vars)
    (h0 : 0 ≤ id) (h1 : id < (MAX_VARS : Int)) (hv : v < 2 ^ 32) :
    ∃ vars', send_ezUART ptrSize vars (encode32 bo v) id = .ok vars' ∧
      read32 bo vars' id.toNat = some v := by
  have hlen := encode32_length bo v
  obtain ⟨vars', hsend, hslot⟩ :=
    send_ezUART_slot ptrSize vars (encode32 bo v) id hptr hwf h0 h1 (by omega)
  refine ⟨vars', hsend, ?_⟩
  unfold read32
  rw [hslot, List.take_of_length_le (by omega)]
  exact decode32_encode32 bo v hv

/-- The `int32` value 42 written to slot 3 and read back on a
little-endian target with 4-byte pointers, and the bit pattern `0x3FC00000` of
the `float` 1.5 written to slot 0 and read back on a big-endian target with
8-byte pointers. -/
theorem send_ezUART_read32_witness :
    (∃ vars', send_ezUART 4 vars_init (encode32 .little 42) 3 = .ok vars' ∧
      read32 .little vars' (3 : Int).toNat = some 42) ∧
    (∃ vars', send_ezUART 8 vars_init (encode32 .big 0x3FC00000) 0 = .ok vars' ∧
      read32 .big vars' (0 : Int).toNat = some 0x3FC00000) :=
  ⟨send_ezUART_read32 4 .little vars_init 42 3
    (by decide) (by decide) (by decide) (by decide) (by norm_num),
   send_ezUART_read32 8 .big vars_init 0x3FC00000 0
    (by decide) (by decide) (by decide) (by decide) (by norm_num)⟩

/-- C6 at its failing input: the size test is on `sizeof(var)`, the width of
the pointer, where the comments of the code speak of the size of the variable
("Copy directly if it's already 4 bytes (e.g., int, float)").  On a
little-endian target with 2-byte pointers, writing the representation of the
`int32` value 42 to slot 3 of the initial store leaves the store as it was,
and reading slot 3 back yields 0, not 42. -/
theorem send_ezUART_read32_narrow_pointer :
    send_ezUART 2 vars_init (encode32 .little 42) 3 = .ok vars_init ∧
    read32 .little vars_init 3 = some 0 ∧
    ¬ ∃ vars', send_ezUART 2 vars_init (encode32 .little 42) 3 = .ok vars' ∧
      read32 .little vars' (3 : Int).toNat = some 42 := by
  refine ⟨by decide, by decide, ?_⟩
  rintro ⟨vars', h, hs⟩
  have h2 : send_ezUART 2 vars_init (encode32 .little 42) 3 = .ok vars_init := by decide
  rw [h2] at h
  cases h
  revert hs
  decide

/-! ## The shape of the store is fixed -/

/-- C7: after any finite sequence of `send_ezUART` calls, with arbitrary
sources and ids, on a well-formed store, whatever store is left still has
exactly `MAX_VARS = 10` slots, each exactly `VAR_SIZE = 4` bytes wide, and no
slot beyond them; and the sequence does leave a store when every source has
at least `VAR_SIZE` bytes. -/
theorem run_keeps_shape (ptrSize : Nat) (vars : Store) (calls : List (List Byte × Int))
    (hwf : WellFormed vars) :
    (∀ vars', run ptrSize vars calls = .ok vars' →
      vars'.length = MAX_VARS * VAR_SIZE ∧ slotCount vars' = MAX_VARS ∧
      (∀ j, j < MAX_VARS → (slot vars' j).length = VAR_SIZE) ∧
      (∀ j, MAX_VARS ≤ j → slot vars' j = [])) ∧
    ((∀ c ∈ calls, VAR_SIZE ≤ c.1.length) → ∃ vars', run ptrSize vars calls = .ok vars') :=
  ⟨fun vars' h => wellFormed_shape vars' (run_wellFormed ptrSize calls vars vars' hwf h),
   fun hsrc => run_returns ptrSize calls vars hwf hsrc⟩

/-- Witness for C7: three calls, one of them with an id out of range, from
the initial store. -/
theorem run_keeps_shape_witness :
    (∀ vars', run 4 vars_init [([1, 2, 3, 4], 0), ([5, 6, 7, 8, 9], 12), ([9, 9, 9, 9], 9)]
        = .ok vars' →
      vars'.length = MAX_VARS * VAR_SIZE ∧ slotCount vars' = MAX_VARS ∧
      (∀ j, j < MAX_VARS → (slot vars' j).length = VAR_SIZE) ∧
      (∀ j, MAX_VARS ≤ j → slot vars' j = [])) ∧
    ((∀ c ∈ [(([1, 2, 3, 4] : List Byte), (0 : Int)), ([5, 6, 7, 8, 9], 12), ([9, 9, 9, 9], 9)],
        VAR_SIZE ≤ c.1.length) →
      ∃ vars', run 4 vars_init [([1, 2, 3, 4], 0), ([5, 6, 7, 8, 9], 12), ([9, 9, 9, 9], 9)]
        = .ok vars') :=
  run_keeps_shape 4 vars_init [([1, 2, 3, 4], 0), ([5, 6, 7, 8, 9], 12), ([9, 9, 9, 9], 9)]
    (by decide)

/-! ## Slots that were never written stay zero -/

/-- C8: the store starts with all `MAX_VARS` cells equal to zero, and after
any finite sequence of `send_ezUART` calls from that initial state every slot
whose index was never passed as `id` still holds zero; the sequence does leave
a store when every source has at least `VAR_SIZE` bytes. -/
theorem run_untouched_slots_zero (ptrSize : Nat) (calls : List (List Byte × Int)) :
    (WellFormed vars_init ∧ ∀ j, j < MAX_VARS →
      slot vars_init j = [0, 0, 0, 0] ∧ ∀ bo, read32 bo vars_init j = some 0) ∧
    (∀ vars', run ptrSize vars_init calls = .ok vars' →
      ∀ j, j < MAX_VARS → (∀ c ∈ calls, c.2 ≠ (j : Int)) → slot vars' j = [0, 0, 0, 0]) ∧
    ((∀ c ∈ calls, VAR_SIZE ≤ c.1.length) →
      ∃ vars', run ptrSize vars_init calls = .ok vars') := by
  have hinit : ∀ j, j < MAX_VARS → slot vars_init j = [0, 0, 0, 0] := by
    intro j hj
    unfold MAX_VARS at hj
    interval_cases j <;> rfl
  have hwf : WellFormed vars_init := by decide
  have hread : ∀ j, j < MAX_VARS → ∀ bo, read32 bo vars_init j = some 0 := by
    intro j hj bo
    unfold read32
    rw [hinit j hj]
    cases bo <;> rfl
  refine ⟨⟨hwf, fun j hj => ⟨hinit j hj, hread j hj⟩⟩, ?_,
    fun hsrc => run_returns ptrSize calls vars_init hwf hsrc⟩
  intro vars' h j hj hids
  rw [run_frame ptrSize j calls vars_init vars' hwf hids h]
  exact hinit j hj

/-! ## Last write wins -/

/-- Last write wins, as C9 describes it, where it holds: for every well-formed
store, every valid `id` and any two sources `a` (of at least `VAR_SIZE`
bytes) and `b`, calling `send_ezUART(a, id)` and then
`send_ezUART(b, id)` has the same outcome as calling `send_ezUART(b, id)`
alone, which leaves a store when `b` has at least `VAR_SIZE` bytes; and on a
target whose pointers are at least `VAR_SIZE` bytes wide the previous contents
of slot `id` have no influence on the result: two well-formed stores that
agree on every other slot give the same outcome. -/
theorem send_ezUART_last_write_wins (ptrSize : Nat) (vars : Store) (a b : List Byte) (id : Int)
    (hwf : WellFormed vars) (h0 : 0 ≤ id) (h1 : id < (MAX_VARS : Int))
    (ha : VAR_SIZE ≤ a.length) :
    (send_ezUART ptrSize vars a id).andThen (fun vars' => send_ezUART ptrSize vars' b id)
        = send_ezUART ptrSize vars b id ∧
    (VAR_SIZE ≤ b.length → ∃ vars', send_ezUART ptrSize vars b id = .ok vars') ∧
    (VAR_SIZE ≤ ptrSize → ∀ other : Store, WellFormed other →
      (∀ j, j < MAX_VARS → (j : Int) ≠ id → slot other j = slot vars j) →
      send_ezUART ptrSize other b id = send_ezUART ptrSize vars b id) := by
  have hk : id.toNat < MAX_VARS := by omega
  have hlen : ∀ u : Store, WellFormed u → SIZEOF_UINT32 * id.toNat + 4 ≤ u.length := by
    intro u hu
    unfold WellFormed at hu
    unfold MAX_VARS at hk hu
    unfold SIZEOF_UINT32 at *
    omega
  have htake : ∀ c : List Byte, VAR_SIZE ≤ c.length → (c.take 4).length = 4 := by
    intro c hc
    unfold VAR_SIZE at hc
    rw [List.length_take]; omega
  refine ⟨?_, fun hb => send_ezUART_returns ptrSize vars b id hwf hb, ?_⟩
  · rcases send_ezUART_cases ptrSize vars a id hwf with h | ⟨_, _, hp, _, h⟩ | ⟨_, _, _, hlt, _⟩
    · rw [h]; rfl
    · rw [h]
      show send_ezUART ptrSize _ b id = _
      have hwf' := wellFormed_splice vars a id.toNat hwf hk ha
      rw [send_ezUART_of_valid ptrSize _ b id hp h0 h1,
        send_ezUART_of_valid ptrSize vars b id hp h0 h1]
      by_cases hb : VAR_SIZE ≤ b.length
      · rw [memcpy_vars_eq _ b id hwf' h0 h1 hb, memcpy_vars_eq vars b id hwf h0 h1 hb,
          splice_splice vars (a.take 4) (b.take 4) id.toNat (hlen vars hwf) (htake a ha)]
      · rw [memcpy_vars_short _ b id hwf' h0 h1 (by omega),
          memcpy_vars_short vars b id hwf h0 h1 (by omega)]
    · omega
  · intro hp other hwo hagree
    rw [send_ezUART_of_valid ptrSize other b id hp h0 h1,
      send_ezUART_of_valid ptrSize vars b id hp h0 h1]
    by_cases hb : VAR_SIZE ≤ b.length
    · rw [memcpy_vars_eq other b id hwo h0 h1 hb, memcpy_vars_eq vars b id hwf h0 h1 hb]
      congr 1
      apply slot_ext _ _ (wellFormed_splice other b id.toNat hwo hk hb)
        (wellFormed_splice vars b id.toNat hwf hk hb)
      intro j hj
      by_cases hjk : j = id.toNat
      · rw [hjk, slot_splice_same other _ _ (hlen other hwo) (htake b hb),
          slot_splice_same vars _ _ (hlen vars hwf) (htake b hb)]
      · rw [slot_splice_other other _ _ j (hlen other hwo) (htake b hb) hjk,
          slot_splice_other vars _ _ j (hlen vars hwf) (htake b hb) hjk]
        exact hagree j hj (by omega)
    · rw [memcpy_vars_short other b id hwo h0 h1 (by omega),
        memcpy_vars_short vars b id hwf h0 h1 (by omega)]

/-- Two writes to slot 6 of the initial store. -/
theorem send_ezUART_last_write_wins_witness :
    (send_ezUART 4 vars_init [1, 2, 3, 4] 6).andThen
        (fun vars' => send_ezUART 4 vars' [5, 6, 7, 8] 6)
        = send_ezUART 4 vars_init [5, 6, 7, 8] 6 ∧
    (VAR_SIZE ≤ [(5 : Byte), 6, 7, 8].length →
      ∃ vars', send_ezUART 4 vars_init [5, 6, 7, 8] 6 = .ok vars') ∧
    (VAR_SIZE ≤ 4 → ∀ other : Store, WellFormed other →
      (∀ j, j < MAX_VARS → (j : Int) ≠ 6 → slot other j = slot vars_init j) →
      send_ezUART 4 other [5, 6, 7, 8] 6 = send_ezUART 4 vars_init [5, 6, 7, 8] 6) :=
  send_ezUART_last_write_wins 4 vars_init [1, 2, 3, 4] [5, 6, 7, 8] 6
    (by decide) (by decide) (by decide) (by decide)

/-- C9 at its failing input: the size test is on `sizeof(var)`, the width of
the pointer, where the comments of the code speak of the size of the variable
("Copy directly if it's already 4 bytes").  On a target with 2-byte pointers,
on a store whose slot 0 holds `0xFF,0xFF,0xFF,0xFF`, the writes of `1,2,3,4`
and then `5,6,7,8` to slot 0 leave the store as it was: slot 0 still holds its
previous contents, not the bytes of the last write.  The result therefore
depends on the previous contents of the slot: the initial store, which agrees
with that store on every other slot, ends in a different store. -/
theorem send_ezUART_last_write_wins_narrow_pointer :
    WellFormed (List.replicate 4 0xFF ++ List.replicate 36 0) ∧
    (send_ezUART 2 (List.replicate 4 0xFF ++ List.replicate 36 0) [1, 2, 3, 4] 0).andThen
        (fun vars' => send_ezUART 2 vars' [5, 6, 7, 8] 0)
      = .ok (List.replicate 4 0xFF ++ List.replicate 36 0) ∧
    slot (List.replicate 4 0xFF ++ List.replicate 36 0) 0 = [0xFF, 0xFF, 0xFF, 0xFF] ∧
    (∀ j, j < MAX_VARS → (j : Int) ≠ 0 →
      slot (List.replicate 4 0xFF ++ List.replicate 36 0) j = slot vars_init j) ∧
    send_ezUART 2 vars_init [5, 6, 7, 8] 0 = .ok vars_init ∧
    send_ezUART 2 (List.replicate 4 0xFF ++ List.replicate 36 0) [5, 6, 7, 8] 0
      = .ok (List.replicate 4 0xFF ++ List.replicate 36 0) ∧
    send_ezUART 2 (List.replicate 4 0xFF ++ List.replicate 36 0) [5, 6, 7, 8] 0
      ≠ send_ezUART 2 vars_init [5, 6, 7, 8] 0 := by
  refine ⟨by decide, by decide, by decide, ?_, by decide, by decide, by decide⟩
  intro j hj hne
  unfold MAX_VARS at hj
  interval_cases j
  · exact absurd rfl hne
  all_goals rfl

/-! ## The bounds check guards the array access -/

/-- C10: for every `int id` and every source, on a well-formed store,
`send_ezUART` has an outcome that is never the out-of-bounds fault of the
indexed write: either it returns the store as it was, without a copy, or `id`
satisfies `0 ≤ id < MAX_VARS` and the outcome is that of the copy into
`vars[id]`.  The indexed write by itself faults as out of bounds exactly when
the index is outside that range, so that branch is unreachable. -/
theorem send_ezUART_index_in_bounds (ptrSize : Nat) (vars : Store) (var : List Byte) (id : Int)
    (hwf : WellFormed vars) :
    send_ezUART ptrSize vars var id ≠ .fault .outOfBounds ∧
    (send_ezUART ptrSize vars var id = .ok vars ∨
      (0 ≤ id ∧ id < (MAX_VARS : Int) ∧
        send_ezUART ptrSize vars var id = memcpy_vars vars id var VAR_SIZE)) ∧
    (memcpy_vars vars id var VAR_SIZE = .fault .outOfBounds ↔
      (id < 0 ∨ (MAX_VARS : Int) ≤ id)) := by
  refine ⟨?_, ?_, memcpy_vars_outOfBounds_iff vars var id hwf⟩
  · rcases send_ezUART_cases ptrSize vars var id hwf with h | ⟨_, _, _, _, h⟩ | ⟨_, _, _, _, h⟩ <;>
    · rw [h]; intro hc; cases hc
  · by_cases hid : id < 0 ∨ (MAX_VARS : Int) ≤ id
    · exact Or.inl (send_ezUART_of_invalid ptrSize vars var id hid)
    · by_cases hptr : ptrSize < VAR_SIZE
      · exact Or.inl (send_ezUART_of_narrow ptrSize vars var id hptr)
      · exact Or.inr ⟨by omega, by omega,
          send_ezUART_of_valid ptrSize vars var id (by omega) (by omega) (by omega)⟩

/-- Witness for C10: `id = MAX_VARS`, where an unguarded indexed write would
be out of bounds. -/
theorem send_ezUART_index_in_bounds_witness :
    send_ezUART 4 vars_init [1, 2, 3, 4] 10 ≠ .fault .outOfBounds ∧
    (send_ezUART 4 vars_init [1, 2, 3, 4] 10 = .ok vars_init ∨
      ((0 : Int) ≤ 10 ∧ (10 : Int) < (MAX_VARS : Int) ∧
        send_ezUART 4 vars_init [1, 2, 3, 4] 10 = memcpy_vars vars_init 10 [1, 2, 3, 4] VAR_SIZE)) ∧
    (memcpy_vars vars_init 10 [1, 2, 3, 4] VAR_SIZE = .fault .outOfBounds ↔
      ((10 : Int) < 0 ∨ (MAX_VARS : Int) ≤ 10)) :=
  send_ezUART_index_in_bounds 4 vars_init [1, 2, 3, 4] 10 (by decide)

/-! ## Writes to different slots commute -/

/-- With the same bytes read in both orders, calls with two different ids
have the same outcome in either order, and both orders leave a store when `a`
and `b` have at least `VAR_SIZE` bytes. -/
theorem send_ezUART_commute_bytes (ptrSize : Nat) (vars : Store) (a b : List Byte) (i j : Int)
    (hwf : WellFormed vars) (hij : i ≠ j) :
    (send_ezUART ptrSize vars a i).andThen (fun vars' => send_ezUART ptrSize vars' b j)
      = (send_ezUART ptrSize vars b j).andThen (fun vars' => send_ezUART ptrSize vars' a i) ∧
    (VAR_SIZE ≤ a.length → VAR_SIZE ≤ b.length →
      ∃ vars', (send_ezUART ptrSize vars a i).andThen
        (fun vars' => send_ezUART ptrSize vars' b j) = .ok vars') := by
  constructor
  · by_cases hp : ptrSize < VAR_SIZE
    · rw [send_ezUART_of_narrow ptrSize vars a i hp, send_ezUART_of_narrow ptrSize vars b j hp]
      show send_ezUART ptrSize vars b j = send_ezUART ptrSize vars a i
      rw [send_ezUART_of_narrow ptrSize vars a i hp, send_ezUART_of_narrow ptrSize vars b j hp]
    · have hp' : VAR_SIZE ≤ ptrSize := by omega
      by_cases hi : i < 0 ∨ (MAX_VARS : Int) ≤ i
      · have hfun : (fun vars' => send_ezUART ptrSize vars' a i) = fun vars' => .ok vars' :=
          funext fun v => send_ezUART_of_invalid ptrSize v a i hi
        rw [send_ezUART_of_invalid ptrSize vars a i hi, hfun, andThen_ok]
        rfl
      · by_cases hj : j < 0 ∨ (MAX_VARS : Int) ≤ j
        · have hfun : (fun vars' => send_ezUART ptrSize vars' b j) = fun vars' => .ok vars' :=
            funext fun v => send_ezUART_of_invalid ptrSize v b j hj
          rw [send_ezUART_of_invalid ptrSize vars b j hj, hfun, andThen_ok]
          rfl
        · have hi0 : 0 ≤ i := by omega
          have hi1 : i < (MAX_VARS : Int) := by omega
          have hj0 : 0 ≤ j := by omega
          have hj1 : j < (MAX_VARS : Int) := by omega
          have hfa : (fun vars' => send_ezUART ptrSize vars' a i)
              = fun vars' => memcpy_vars vars' i a VAR_SIZE :=
            funext fun v => send_ezUART_of_valid ptrSize v a i hp' hi0 hi1
          have hfb : (fun vars' => send_ezUART ptrSize vars' b j)
              = fun vars' => memcpy_vars vars' j b VAR_SIZE :=
            funext fun v => send_ezUART_of_valid ptrSize v b j hp' hj0 hj1
          rw [hfa, hfb, send_ezUART_of_valid ptrSize vars a i hp' hi0 hi1,
            send_ezUART_of_valid ptrSize vars b j hp' hj0 hj1]
          by_cases ha : VAR_SIZE ≤ a.length
          · have hwa := wellFormed_splice vars a i.toNat hwf (by omega) ha
            rw [memcpy_vars_eq vars a i hwf hi0 hi1 ha]
            by_cases hb : VAR_SIZE ≤ b.length
            · have hwb := wellFormed_splice vars b j.toNat hwf (by omega) hb
              rw [memcpy_vars_eq vars b j hwf hj0 hj1 hb]
              show memcpy_vars _ j b VAR_SIZE = memcpy_vars _ i a VAR_SIZE
              rw [memcpy_vars_eq _ b j hwa hj0 hj1 hb, memcpy_vars_eq _ a i hwb hi0 hi1 ha,
                splice_comm vars a b i.toNat j.toNat hwf (by omega) (by omega) (by omega) ha hb]
            · rw [memcpy_vars_short vars b j hwf hj0 hj1 (by omega)]
              show memcpy_vars _ j b VAR_SIZE = _
              rw [memcpy_vars_short _ b j hwa hj0 hj1 (by omega)]
              rfl
          · rw [memcpy_vars_short vars a i hwf hi0 hi1 (by omega)]
            by_cases hb : VAR_SIZE ≤ b.length
            · have hwb := wellFormed_splice vars b j.toNat hwf (by omega) hb
              rw [memcpy_vars_eq vars b j hwf hj0 hj1 hb]
              show _ = memcpy_vars _ i a VAR_SIZE
              rw [memcpy_vars_short _ a i hwb hi0 hi1 (by omega)]
              rfl
            · rw [memcpy_vars_short vars b j hwf hj0 hj1 (by omega)]
              rfl
  · intro ha hb
    obtain ⟨mid, hmid⟩ := send_ezUART_returns ptrSize vars a i hwf ha
    obtain ⟨vars', hres⟩ := send_ezUART_returns ptrSize mid b j
      (send_ezUART_wellFormed ptrSize vars mid a i hwf hmid) hb
    exact ⟨vars', by rw [hmid]; exact hres⟩

/-- A call whose pointer does not overlap its destination slot is the call on
the bytes read through the pointer. -/
theorem send_ezUART_ptr_eq (ptrSize : Nat) (vars : Store) (src : Source) (id : Int)
    (h : src.overlaps id = false) :
    send_ezUART_ptr ptrSize vars src id = send_ezUART ptrSize vars (src.read vars) id := by
  unfold send_ezUART_ptr
  rw [if_neg (by simp [h])]

/-- Only the first `n` bytes of the source matter to `memcpy`. -/
theorem memcpy_take (dst src : List Byte) (off n : Nat) :
    memcpy dst off (src.take n) n = memcpy dst off src n := by
  unfold memcpy
  by_cases h : src.length < n
  · have h2 : (src.take n).length < n := by rw [List.length_take]; omega
    simp only [if_pos h, if_pos h2]
  · have h2 : ¬ (src.take n).length < n := by rw [List.length_take]; omega
    simp only [if_neg h, if_neg h2, List.take_take, Nat.min_self]

/-- Only the first `VAR_SIZE` bytes of the source matter to a call. -/
theorem send_ezUART_take (ptrSize : Nat) (vars : Store) (var : List Byte) (id : Int) :
    send_ezUART ptrSize vars (var.take VAR_SIZE) id = send_ezUART ptrSize vars var id := by
  unfold send_ezUART memcpy_vars
  simp only [memcpy_take]

/-- Replacing the bytes of slot `k` does not change 4 bytes read at an offset
that does not overlap the slot. -/
theorem take_drop_splice (vars bytes : List Byte) (k off : Nat)
    (hlen : SIZEOF_UINT32 * k + 4 ≤ vars.length) (hb : bytes.length = 4)
    (hoff : off + 4 ≤ SIZEOF_UINT32 * k ∨ SIZEOF_UINT32 * k + 4 ≤ off) :
    ((vars.take (SIZEOF_UINT32 * k) ++ bytes ++ vars.drop (SIZEOF_UINT32 * k + 4)).drop off).take 4
      = (vars.drop off).take 4 := by
  unfold SIZEOF_UINT32 at *
  have h1 : (List.take (4 * k) vars).length = 4 * k := by
    rw [List.length_take]; omega
  rcases hoff with h | h
  · rw [List.append_assoc, List.drop_append_of_le_length (by omega)]
    rw [List.take_append_of_le_length (by rw [List.length_drop]; omega)]
    rw [List.drop_take, List.take_take]
    congr 1
    omega
  · rw [List.append_assoc, List.drop_append_eq_append_drop, List.drop_append_eq_append_drop]
    rw [List.drop_of_length_le (by omega), List.nil_append]
    rw [List.drop_of_length_le (by rw [h1, hb]; omega), List.nil_append]
    rw [List.drop_drop, h1, hb]
    congr 2
    omega

/-- After a call that wrote slot `k`, a pointer that does not overlap slot `k`
still reads the bytes it read before, as far as a call can tell. -/
theorem send_ezUART_read_stable (ptrSize : Nat) (vars mid : Store) (var : List Byte) (k m : Int)
    (src : Source) (hwf : WellFormed vars) (hsrc : src.overlaps k = false)
    (h : send_ezUART ptrSize vars var k = .ok mid) :
    send_ezUART ptrSize mid (src.read mid) m = send_ezUART ptrSize mid (src.read vars) m := by
  cases src with
  | object bytes => rfl
  | inVars off =>
    rcases send_ezUART_cases ptrSize vars var k hwf with h' | ⟨h0, h1, _, hv, h'⟩ | ⟨_, _, _, _, h'⟩
    · rw [h'] at h; cases h; rfl
    · rw [h'] at h; cases h
      have hno : off + 4 ≤ SIZEOF_UINT32 * k.toNat ∨ SIZEOF_UINT32 * k.toNat + 4 ≤ off := by
        simp only [Source.overlaps, decide_eq_false_iff_not, VAR_SIZE] at hsrc
        by_contra hc
        exact hsrc ⟨h0, h1, by omega, by omega⟩
      have hlen : SIZEOF_UINT32 * k.toNat + 4 ≤ vars.length := by
        unfold WellFormed at hwf
        unfold MAX_VARS at h1 hwf
        unfold SIZEOF_UINT32 at *
        omega
      have hb : (var.take 4).length = 4 := by
        unfold VAR_SIZE at hv
        rw [List.length_take]; omega
      rw [← send_ezUART_take ptrSize _ (Source.read _ (Source.inVars off)) m,
        ← send_ezUART_take ptrSize _ (Source.read vars (Source.inVars off)) m]
      simp only [Source.read, VAR_SIZE]
      rw [take_drop_splice vars (var.take 4) k.toNat off hlen hb hno]
    · rw [h'] at h; cases h

/-- Two continuations that agree on the store a call leaves give the same
outcome after it. -/
theorem andThen_congr (o : Outcome) (f g : Store → Outcome)
    (h : ∀ vars, o = .ok vars → f vars = g vars) : o.andThen f = o.andThen g := by
  cases o with
  | ok vars => exact h vars rfl
  | fault e => rfl

/-- C11: for every well-formed store, any two ids `i ≠ j` and any two sources
`a` and `b` (objects of the caller or addresses inside `vars`) that overlap
neither slot `i` nor slot `j`, calling `send_ezUART(a, i)` then
`send_ezUART(b, j)` has the same outcome as calling `send_ezUART(b, j)` then
`send_ezUART(a, i)`; and both orders do leave a store when at least `VAR_SIZE`
bytes can be read through `a` and through `b`. -/
theorem send_ezUART_ptr_commute (ptrSize : Nat) (vars : Store) (a b : Source) (i j : Int)
    (hwf : WellFormed vars) (hij : i ≠ j)
    (hai : a.overlaps i = false) (haj : a.overlaps j = false)
    (hbi : b.overlaps i = false) (hbj : b.overlaps j = false) :
    (send_ezUART_ptr ptrSize vars a i).andThen (fun vars' => send_ezUART_ptr ptrSize vars' b j)
      = (send_ezUART_ptr ptrSize vars b j).andThen
        (fun vars' => send_ezUART_ptr ptrSize vars' a i) ∧
    (VAR_SIZE ≤ (a.read vars).length → VAR_SIZE ≤ (b.read vars).length →
      ∃ vars', (send_ezUART_ptr ptrSize vars a i).andThen
        (fun vars' => send_ezUART_ptr ptrSize vars' b j) = .ok vars') := by
  have e1 : (send_ezUART_ptr ptrSize vars a i).andThen
        (fun vars' => send_ezUART_ptr ptrSize vars' b j)
      = (send_ezUART ptrSize vars (a.read vars) i).andThen
        (fun vars' => send_ezUART ptrSize vars' (b.read vars) j) := by
    rw [send_ezUART_ptr_eq ptrSize vars a i hai]
    apply andThen_congr
    intro mid hmid
    rw [send_ezUART_ptr_eq ptrSize mid b j hbj]
    exact send_ezUART_read_stable ptrSize vars mid (a.read vars) i j b hwf hbi hmid
  have e2 : (send_ezUART_ptr ptrSize vars b j).andThen
        (fun vars' => send_ezUART_ptr ptrSize vars' a i)
      = (send_ezUART ptrSize vars (b.read vars) j).andThen
        (fun vars' => send_ezUART ptrSize vars' (a.read vars) i) := by
    rw [send_ezUART_ptr_eq ptrSize vars b j hbj]
    apply andThen_congr
    intro mid hmid
    rw [send_ezUART_ptr_eq ptrSize mid a i hai]
    exact send_ezUART_read_stable ptrSize vars mid (b.read vars) j i a hwf haj hmid
  have hc := send_ezUART_commute_bytes ptrSize vars (a.read vars) (b.read vars) i j hwf hij
  rw [e1, e2]
  exact hc

/-- Witness for C11: slot 5 of the store copied to slot 2 through the address
`&vars[5]`, and an object of the caller written to slot 7, in both orders. -/
theorem send_ezUART_ptr_commute_witness :
    (send_ezUART_ptr 4 (List.replicate 40 0xFF) (.inVars 20) 2).andThen
        (fun vars' => send_ezUART_ptr 4 vars' (.object [5, 6, 7, 8]) 7)
      = (send_ezUART_ptr 4 (List.replicate 40 0xFF) (.object [5, 6, 7, 8]) 7).andThen
        (fun vars' => send_ezUART_ptr 4 vars' (.inVars 20) 2) ∧
    (VAR_SIZE ≤ (Source.read (List.replicate 40 0xFF) (.inVars 20)).length →
      VAR_SIZE ≤ (Source.read (List.replicate 40 0xFF) (.object [5, 6, 7, 8])).length →
      ∃ vars', (send_ezUART_ptr 4 (List.replicate 40 0xFF) (.inVars 20) 2).andThen
        (fun vars' => send_ezUART_ptr 4 vars' (.object [5, 6, 7, 8]) 7) = .ok vars') :=
  send_ezUART_ptr_commute 4 (List.replicate 40 0xFF) (.inVars 20) (.object [5, 6, 7, 8]) 2 7
    (by decide) (by decide) (by decide) (by decide) (by decide) (by decide)

/-- C11 fails for a source that is the slot the other call writes: with
`a = &vars[1]`, `i = 0`, `j = 1` and `b` an object holding `9,9,9,9`, on the
initial store and with 4-byte pointers, `a` overlaps slot `j` but not its own
destination, so no copy is undefined, and the two orders leave slot 0 holding
`0,0,0,0` and `9,9,9,9`. -/
theorem send_ezUART_ptr_commute_counterexample :
    Source.overlaps (.inVars 4) 0 = false ∧ Source.overlaps (.inVars 4) 1 = true ∧
    (send_ezUART_ptr 4 vars_init (.inVars 4) 0).andThen
        (fun vars' => send_ezUART_ptr 4 vars' (.object [9, 9, 9, 9]) 1)
      = .ok ([0, 0, 0, 0, 9, 9, 9, 9] ++ List.replicate 32 0) ∧
    (send_ezUART_ptr 4 vars_init (.object [9, 9, 9, 9]) 1).andThen
        (fun vars' => send_ezUART_ptr 4 vars' (.inVars 4) 0)
      = .ok ([9, 9, 9, 9, 9, 9, 9, 9] ++ List.replicate 32 0) ∧
    (send_ezUART_ptr 4 vars_init (.inVars 4) 0).andThen
        (fun vars' => send_ezUART_ptr 4 vars' (.object [9, 9, 9, 9]) 1)
      ≠ (send_ezUART_ptr 4 vars_init (.object [9, 9, 9, 9]) 1).andThen
        (fun vars' => send_ezUART_ptr 4 vars' (.inVars 4) 0) := by
  refine ⟨by decide, by decide, by decide, by decide, by decide⟩

/-! ## The size test is on the pointer width -/

/-- C12: the size test of `send_ezUART` is on `sizeof(var)`, the width `w` of
the pointer, not on the size of the value pointed to.  For a valid `id`, the
branch `w > VAR_SIZE` and the branch `w = VAR_SIZE` perform the identical copy
`memcpy(&vars[id], var, VAR_SIZE)`, so all widths `w ≥ VAR_SIZE` give the same
outcome, and a value of fewer than `VAR_SIZE` bytes is not skipped but read
past its end.  For `w < VAR_SIZE` neither branch is taken and the store is
returned unchanged for every `id` and every source, valid ids and sources of 4
or more bytes included. -/
theorem send_ezUART_size_test_on_pointer (w : Nat) (vars : Store) (var : List Byte) (id : Int) :
    (w > VAR_SIZE → 0 ≤ id → id < (MAX_VARS : Int) →
      send_ezUART w vars var id = memcpy_vars vars id var VAR_SIZE) ∧
    (w = VAR_SIZE → 0 ≤ id → id < (MAX_VARS : Int) →
      send_ezUART w vars var id = memcpy_vars vars id var VAR_SIZE) ∧
    (VAR_SIZE ≤ w → ∀ w', VAR_SIZE ≤ w' →
      send_ezUART w vars var id = send_ezUART w' vars var id) ∧
    (VAR_SIZE ≤ w → WellFormed vars → 0 ≤ id → id < (MAX_VARS : Int) →
      var.length < VAR_SIZE → send_ezUART w vars var id = .fault .overread) ∧
    (w < VAR_SIZE → send_ezUART w vars var id = .ok vars) := by
  refine ⟨?_, ?_, ?_, ?_, ?_⟩
  · intro hw h0 h1
    unfold send_ezUART
    rw [if_neg (by omega), if_pos hw]
  · intro hw h0 h1
    unfold send_ezUART
    rw [if_neg (by omega), if_neg (by omega), if_pos hw]
  · intro hw w' hw'
    by_cases hid : id < 0 ∨ (MAX_VARS : Int) ≤ id
    · rw [send_ezUART_of_invalid w vars var id hid, send_ezUART_of_invalid w' vars var id hid]
    · rw [send_ezUART_of_valid w vars var id hw (by omega) (by omega),
        send_ezUART_of_valid w' vars var id hw' (by omega) (by omega)]
  · intro hw hwf h0 h1 hsrc
    rw [send_ezUART_of_valid w vars var id hw h0 h1]
    exact memcpy_vars_short vars var id hwf h0 h1 hsrc
  · intro hw
    exact send_ezUART_of_narrow w vars var id hw

/-- Witness for C12: a 4-byte value written to the valid slot 3 of the initial
store with 8-byte, 4-byte and 2-byte pointers, and a 2-byte value with 4-byte
pointers. -/
theorem send_ezUART_size_test_on_pointer_witness :
    send_ezUART 8 vars_init [1, 2, 3, 4] 3 = memcpy_vars vars_init 3 [1, 2, 3, 4] VAR_SIZE ∧
    send_ezUART 4 vars_init [1, 2, 3, 4] 3 = memcpy_vars vars_init 3 [1, 2, 3, 4] VAR_SIZE ∧
    send_ezUART 8 vars_init [1, 2, 3, 4] 3 = send_ezUART 4 vars_init [1, 2, 3, 4] 3 ∧
    send_ezUART 4 vars_init [1, 2] 3 = .fault .overread ∧
    send_ezUART 2 vars_init [1, 2, 3, 4] 3 = .ok vars_init :=
  ⟨(send_ezUART_size_test_on_pointer 8 vars_init [1, 2, 3, 4] 3).1
      (by decide) (by decide) (by decide),
   (send_ezUART_size_test_on_pointer 4 vars_init [1, 2, 3, 4] 3).2.1
      (by decide) (by decide) (by decide),
   (send_ezUART_size_test_on_pointer 8 vars_init [1, 2, 3, 4] 3).2.2.1 (by decide) 4 (by decide),
   (send_ezUART_size_test_on_pointer 4 vars_init [1, 2] 3).2.2.2.1
      (by decide) (by decide) (by decide) (by decide) (by decide),
   (send_ezUART_size_test_on_pointer 2 vars_init [1, 2, 3, 4] 3).2.2.2.2 (by decide)⟩

end EzUART
